import Mathlib

/-!
Verification development for the model-serving layer of the ml_cli repository.

The definitions below are a shallow embedding of the Python sources:
  * `src/ml_cli/core/predict.py`   (`make_predictions`)
  * `src/ml_cli/api/main.py`       (`apply_categorical_encoding`, `predict`, `predict_batch`)
  * `src/ml_cli/utils/utils.py`    (`load_model` field synthesis, `convert_numpy_types`,
                                    `format_prediction_response`)
  * `src/ml_cli/commands/serve.py` (the documented endpoint list)

Machine floats are modelled exactly as rationals (`ℚ`); numpy arrays as lists of
rationals together with an explicit dtype flag; Python dicts as association lists
with string keys; raised `HTTPException`s as `Except` errors carrying the same
data the exception detail string is formatted from.
-/

namespace MlCli

/-- A plain (JSON-representable) Python value as it appears in request payloads
and response fields: int, float, str or bool. -/
inductive Val where
  | vInt : Int → Val
  | vFloat : ℚ → Val
  | vStr : String → Val
  | vBool : Bool → Val
deriving DecidableEq, Repr

/-- The raw data of the numpy array obtained from `model.predict` in
`make_predictions` (`core/predict.py`), after the `np.array` normalisation:
either one-dimensional (`shape (n,)`) or two-dimensional (`shape (n, m)`). -/
inductive PredData where
  | one : List ℚ → PredData
  | two : List (List ℚ) → PredData
deriving DecidableEq, Repr

/-- The raw prediction array together with its dtype: `isFloatDtype` models the
check `pred_data.dtype in [np.float32, np.float64]` in `core/predict.py`. -/
structure RawPred where
  data : PredData
  isFloatDtype : Bool
deriving DecidableEq, Repr

/-- `pred_data.ravel()` / the identity on 1-d arrays: flattening to one dimension. -/
def ravelData : PredData → List ℚ
  | .one xs => xs
  | .two xss => xss.flatten

/-- Number of columns of a two-dimensional array (`pred_data.shape[1]`);
numpy arrays are rectangular, so the first row's length is the column count. -/
def cols2 (xss : List (List ℚ)) : Nat :=
  (xss.headD []).length

/-- Tail of `np.argmax`: index of the running maximum, scanning left to right.
`best` is the index of the best value seen so far, `bestv` that value, `i` the
index of the next element. A strictly greater value replaces the current best,
so ties keep the earliest index, as `np.argmax` does. -/
def argmaxAux : Nat → ℚ → Nat → List ℚ → Nat
  | best, _, _, [] => best
  | best, bestv, i, x :: xs =>
      if bestv < x then argmaxAux i x (i + 1) xs else argmaxAux best bestv (i + 1) xs

/-- `np.argmax` on a one-dimensional array: first index attaining the maximum. -/
def argmaxIdx : List ℚ → Nat
  | [] => 0
  | x :: xs => argmaxAux 0 x 1 xs

/-- `int(q)` / `.astype(int)` on an exact value: truncation toward zero. -/
def truncToInt (q : ℚ) : Int :=
  q.num / (q.den : Int)

/-- The binary branch of `make_predictions` (`core/predict.py` lines 76-86):
given the flattened prediction array and its float-dtype flag, interpret the
values as positive-class probabilities when every value lies in `[0, 1]` and
the dtype is floating; otherwise treat them as already-discrete labels. -/
def binaryDecode (xs : List ℚ) (isFloat : Bool) : List Val × Option (List (List ℚ)) :=
  if isFloat && xs.all (fun p => decide (0 ≤ p ∧ p ≤ 1)) then
    (xs.map (fun p => Val.vInt (if 1/2 < p then 1 else 0)),
     some (xs.map (fun p => [1 - p, p])))
  else
    (xs.map (fun p => Val.vInt (truncToInt p)), none)

/-- The classification arm of `make_predictions` (`core/predict.py` lines 68-86):
a two-dimensional output with more than one column is a multiclass probability
matrix decoded by row-wise `argmax`; anything else is flattened and decoded by
the binary branch. -/
def classifyDecode : RawPred → List Val × Option (List (List ℚ))
  | ⟨.two xss, b⟩ =>
      if 1 < cols2 xss then
        (xss.map (fun row => Val.vInt (Int.ofNat (argmaxIdx row))), some xss)
      else
        binaryDecode xss.flatten b
  | ⟨.one xs, b⟩ => binaryDecode xs b

/-- `make_predictions` from `core/predict.py`, starting from the raw array the
model returned (the opaque `model.predict` call itself is the caller's input
here).  Returns the decoded predictions and the optional probability matrix;
the `predictions_df` the source also returns is the same list wrapped in a
DataFrame and is omitted.  For non-classification tasks the source flattens and
keeps the values (float or integer dtype) unchanged. -/
def make_predictions (raw : RawPred) (task_type : String) : List Val × Option (List (List ℚ)) :=
  if task_type = "classification" then
    classifyDecode raw
  else
    ((ravelData raw.data).map
      (fun q => if raw.isFloatDtype then Val.vFloat q else Val.vInt (truncToInt q)), none)

theorem argmaxIdx_pair (a b : ℚ) : argmaxIdx [a, b] = if a < b then 1 else 0 := by
  simp [argmaxIdx, argmaxAux]

theorem binaryDecode_prob (xs : List ℚ) (hrange : ∀ p ∈ xs, 0 ≤ p ∧ p ≤ 1) :
    binaryDecode xs true =
      (xs.map (fun p => Val.vInt (if 1/2 < p then 1 else 0)),
       some (xs.map (fun p => [1 - p, p]))) := by
  have hall : (xs.all fun p => decide (0 ≤ p ∧ p ≤ 1)) = true := by
    rw [List.all_eq_true]
    intro p hp
    simpa using hrange p hp
  simp only [binaryDecode]
  rw [if_pos (by rw [Bool.true_and]; exact hall)]

theorem make_predictions_classification (raw : RawPred) :
    make_predictions raw "classification" = classifyDecode raw := by
  simp [make_predictions]

/-- C1: for a classification prediction whose raw output flattens to one
dimension (it is not a two-dimensional matrix with more than one column), with
floating dtype and every value in `[0, 1]`, `make_predictions` returns
probabilities `[1 - p, p]` for each raw value `p` and the label
`1` when `1/2 < p`, else `0` (so `p = 1/2` yields class `0`), and each label
equals `np.argmax` of its probability pair. -/
theorem C1_binary_probability_decoding (raw : RawPred)
    (hcols : ∀ xss, raw.data = PredData.two xss → cols2 xss ≤ 1)
    (hfloat : raw.isFloatDtype = true)
    (hrange : ∀ p ∈ ravelData raw.data, 0 ≤ p ∧ p ≤ 1) :
    make_predictions raw "classification" =
      ((ravelData raw.data).map (fun p => Val.vInt (if 1/2 < p then 1 else 0)),
       some ((ravelData raw.data).map (fun p => [1 - p, p]))) ∧
    ∀ p ∈ ravelData raw.data,
      (if 1/2 < p then (1 : Int) else 0) = Int.ofNat (argmaxIdx [1 - p, p]) := by
  constructor
  · rw [make_predictions_classification]
    obtain ⟨d, f⟩ := raw
    simp only at hfloat
    subst hfloat
    cases d with
    | one xs =>
        simp only [ravelData] at hrange ⊢
        simp only [classifyDecode]
        exact binaryDecode_prob xs hrange
    | two xss =>
        have hc := hcols xss rfl
        simp only [ravelData] at hrange ⊢
        simp only [classifyDecode]
        rw [if_neg (by omega)]
        exact binaryDecode_prob xss.flatten hrange
  · intro p _
    by_cases h : 1/2 < p
    · rw [if_pos h, argmaxIdx_pair, if_pos (by linarith)]
      rfl
    · rw [if_neg h, argmaxIdx_pair, if_neg (by intro hlt; apply h; linarith)]
      rfl

/-- Witness for C1 at the concrete raw output `[0.8, 0.5, 0.2]` (float dtype):
labels `[1, 0, 0]`, probabilities `[[0.2, 0.8], [0.5, 0.5], [0.8, 0.2]]`. -/
theorem C1_binary_probability_decoding_witness :
    make_predictions ⟨PredData.one [4/5, 1/2, 1/5], true⟩ "classification" =
      ((ravelData (PredData.one [4/5, 1/2, 1/5])).map
        (fun p => Val.vInt (if 1/2 < p then 1 else 0)),
       some ((ravelData (PredData.one [4/5, 1/2, 1/5])).map (fun p => [1 - p, p]))) ∧
    ∀ p ∈ ravelData (PredData.one [4/5, 1/2, 1/5]),
      (if 1/2 < p then (1 : Int) else 0) = Int.ofNat (argmaxIdx [1 - p, p]) :=
  C1_binary_probability_decoding ⟨PredData.one [4/5, 1/2, 1/5], true⟩
    (by intro xss h; cases h) rfl
    (by
      intro p hp
      simp only [ravelData, List.mem_cons, List.not_mem_nil, or_false] at hp
      rcases hp with rfl | rfl | rfl <;> norm_num)

/-! ### Schema synthesis (`load_model`, `utils/utils.py` lines 488-514) -/

/-- The primitive kind of a synthesized required-field rule: the `(int, ...)`,
`(float, ...)` or `(str, ...)` entries `load_model` builds for the dynamic
payload model. -/
inductive FieldKind where
  | intField
  | floatField
  | strField
deriving DecidableEq, Repr

/-- Whether `pat` is a prefix of `cs` (on character lists). -/
def charsIsPref : List Char → List Char → Bool
  | [], _ => true
  | _ :: _, [] => false
  | a :: pat, c :: cs => a == c && charsIsPref pat cs

/-- Whether `pat` occurs as a contiguous run inside `cs`. -/
def charsContains : List Char → List Char → Bool
  | pat, [] => pat.isEmpty
  | pat, c :: cs => charsIsPref pat (c :: cs) || charsContains pat cs

/-- Python `pat in s` on strings: substring containment. -/
def strContainsSub (s pat : String) : Bool :=
  charsContains pat.toList s.toList

/-- Python `s.lower()` (the hints are ASCII, where `Char.toLower` agrees with
Python's case folding). -/
def strLower (s : String) : String :=
  ⟨s.data.map Char.toLower⟩

/-- The per-feature branch of the field-synthesis loop in `load_model`
(`utils/utils.py` lines 492-514), restricted to the JSON case where a present
hint is a string: `feature_type = feature_types.get(feature)`; a falsy hint
(absent, or the empty string) defaults to float, otherwise the lowercased hint
is matched by substring — `"int"` wins first, then `"float"`/`"number"`, and
any other string hint yields a string field.  (The source's remaining branch
handles non-string dtype objects and cannot arise from `feature_info.json`.) -/
def fieldKindOfHint : Option String → FieldKind
  | none => .floatField
  | some feature_type =>
      if feature_type = "" then .floatField
      else if strContainsSub (strLower feature_type) "int" then .intField
      else if strContainsSub (strLower feature_type) "float" ||
              strContainsSub (strLower feature_type) "number" then .floatField
      else .strField

/-- The whole field-synthesis loop of `load_model`: one required-field rule per
feature name, with the kind derived from the `feature_types` mapping. -/
def buildFields (feature_names : List String) (feature_types : List (String × String)) :
    List (String × FieldKind) :=
  feature_names.map (fun f => (f, fieldKindOfHint (feature_types.lookup f)))

theorem lookup_map_self {β : Type} (names : List String) (g : String → β) (f : String)
    (hf : f ∈ names) :
    (names.map (fun n => (n, g n))).lookup f = some (g f) := by
  induction names with
  | nil => cases hf
  | cons n rest ih =>
      by_cases hn : f = n
      · subst hn; simp [List.lookup]
      · have hmem : f ∈ rest := by
          rcases List.mem_cons.mp hf with h | h
          · exact absurd h hn
          · exact h
        have hbeq : (f == n) = false := beq_eq_false_iff_ne.mpr hn
        simp only [List.map_cons, List.lookup, hbeq]
        exact ih hmem

/-- C2 counterexample: the hint `"string"` (a value the schema's own
`feature_types` can carry) synthesizes a string field, not the float field the
claim's default demands. -/
theorem C2_counterexample :
    buildFields ["color"] [("color", "string")] = [("color", FieldKind.strField)] ∧
    FieldKind.strField ≠ FieldKind.floatField := by
  decide

/-- C2 (amended): for every feature name, the synthesized rule's kind follows
case-insensitive substring matching on the hint from `feature_types`: a truthy
string hint containing `"int"` gives an integer field; otherwise one containing
`"float"` or `"number"` gives a float field; any other truthy string hint gives
a string field; an absent or empty hint defaults to float. -/
theorem C2_field_kind_synthesis (feature_names : List String)
    (feature_types : List (String × String)) (f : String) (hf : f ∈ feature_names) :
    ∃ k, (buildFields feature_names feature_types).lookup f = some k ∧
      k = fieldKindOfHint (feature_types.lookup f) ∧
      (k = FieldKind.intField ↔
        ∃ s, feature_types.lookup f = some s ∧ s ≠ "" ∧
          strContainsSub (strLower s) "int" = true) ∧
      (k = FieldKind.strField ↔
        ∃ s, feature_types.lookup f = some s ∧ s ≠ "" ∧
          strContainsSub (strLower s) "int" = false ∧
          strContainsSub (strLower s) "float" = false ∧
          strContainsSub (strLower s) "number" = false) := by
  refine ⟨fieldKindOfHint (feature_types.lookup f),
    lookup_map_self feature_names _ f hf, rfl, ?_, ?_⟩
  · constructor
    · intro hk
      cases hlt : feature_types.lookup f with
      | none => rw [hlt] at hk; cases hk
      | some s =>
          rw [hlt] at hk
          by_cases hs : s = ""
          · rw [fieldKindOfHint, if_pos hs] at hk; cases hk
          · rw [fieldKindOfHint, if_neg hs] at hk
            by_cases h1 : strContainsSub (strLower s) "int" = true
            · exact ⟨s, rfl, hs, h1⟩
            · rw [if_neg h1] at hk
              split at hk <;> cases hk
    · rintro ⟨s, hs, hne, hint⟩
      rw [hs, fieldKindOfHint, if_neg hne, if_pos hint]
  · constructor
    · intro hk
      cases hlt : feature_types.lookup f with
      | none => rw [hlt] at hk; cases hk
      | some s =>
          rw [hlt] at hk
          by_cases hs : s = ""
          · rw [fieldKindOfHint, if_pos hs] at hk; cases hk
          · rw [fieldKindOfHint, if_neg hs] at hk
            by_cases h1 : strContainsSub (strLower s) "int" = true
            · rw [if_pos h1] at hk; cases hk
            · rw [if_neg h1] at hk
              by_cases h2 : (strContainsSub (strLower s) "float" ||
                  strContainsSub (strLower s) "number") = true
              · rw [if_pos h2] at hk; cases hk
              · rw [Bool.not_eq_true] at h1
                simp only [Bool.or_eq_true, not_or, Bool.not_eq_true] at h2
                exact ⟨s, rfl, hs, h1, h2.1, h2.2⟩
    · rintro ⟨s, hs, hne, h1, h2, h3⟩
      rw [hs, fieldKindOfHint, if_neg hne, if_neg (by rw [h1]; exact Bool.false_ne_true),
        if_neg (by rw [h2, h3]; simp)]

/-- Witness for C2 at a concrete schema: `"Int64"` hints an integer field,
`"number"` a float field, `"object"` a string field, and an absent hint
defaults to float. -/
theorem C2_field_kind_synthesis_witness :
    ∃ k, (buildFields ["age", "pay", "color", "z"]
            [("age", "Int64"), ("pay", "number"), ("color", "object")]).lookup "age" =
          some k ∧
      k = fieldKindOfHint ([("age", "Int64"), ("pay", "number"),
            ("color", "object")].lookup "age") ∧
      (k = FieldKind.intField ↔
        ∃ s, [("age", "Int64"), ("pay", "number"), ("color", "object")].lookup "age" =
              some s ∧ s ≠ "" ∧ strContainsSub (strLower s) "int" = true) ∧
      (k = FieldKind.strField ↔
        ∃ s, [("age", "Int64"), ("pay", "number"), ("color", "object")].lookup "age" =
              some s ∧ s ≠ "" ∧ strContainsSub (strLower s) "int" = false ∧
          strContainsSub (strLower s) "float" = false ∧
          strContainsSub (strLower s) "number" = false) :=
  C2_field_kind_synthesis ["age", "pay", "color", "z"]
    [("age", "Int64"), ("pay", "number"), ("color", "object")] "age" (by decide)

/-! ### HTTP surface (`api/main.py` route decorators, `commands/serve.py` help text) -/

/-- The route table of the FastAPI app in `api/main.py`: every
`@app.get`/`@app.post` decorator in the module, as (method, path). -/
def appRoutes : List (String × String) :=
  [("GET", "/"), ("GET", "/health"), ("GET", "/model-info"), ("GET", "/predict/example"),
   ("POST", "/predict"), ("GET", "/predict/batch"), ("POST", "/predict/batch")]

/-- The endpoint list the `serve` command's own help text advertises
(`commands/serve.py` lines 18-23). -/
def serveHelpEndpoints : List (String × String) :=
  [("GET", "/"), ("GET", "/health"), ("GET", "/model-info"), ("POST", "/predict"),
   ("POST", "/reload-model")]

/-- C4: the serve command's help text documents `POST /reload-model`, but the
FastAPI app defines no such route — a request to it cannot reach any handler,
so no reload (and no bundle-retention semantics) is implemented. -/
theorem C4_reload_route_missing :
    ("POST", "/reload-model") ∈ serveHelpEndpoints ∧
    ("POST", "/reload-model") ∉ appRoutes := by
  decide

/-! ### JSON-safe conversion (`convert_numpy_types`, `utils/utils.py` lines 787-802) -/

/-- A numpy array of numeric dtype: a nest of regular sub-arrays whose leaves
are fixed-width integers, floats or booleans (the types `np.ndarray.tolist`
turns into plain Python scalars). -/
inductive NpArr where
  | aInt : Int → NpArr
  | aFloat : ℚ → NpArr
  | aBool : Bool → NpArr
  | aList : List NpArr → NpArr

/-- A Python object as it appears in prediction responses: plain scalars and
strings, numpy scalars (`np.integer`, `np.floating`, `np.bool_`), numpy
arrays, and (possibly nested) lists, tuples and string-keyed dicts. -/
inductive PyObj where
  | pInt : Int → PyObj
  | pFloat : ℚ → PyObj
  | pBool : Bool → PyObj
  | pStr : String → PyObj
  | npInt : Int → PyObj
  | npFloat : ℚ → PyObj
  | npBool : Bool → PyObj
  | npArray : NpArr → PyObj
  | pList : List PyObj → PyObj
  | pTuple : List PyObj → PyObj
  | pDict : List (String × PyObj) → PyObj

/-- `np.ndarray.tolist()` on a numeric-dtype array: nested plain lists with
plain scalars at the leaves. -/
def npToList : NpArr → PyObj
  | .aInt n => .pInt n
  | .aFloat q => .pFloat q
  | .aBool b => .pBool b
  | .aList xs => .pList (xs.attach.map fun ⟨x, _⟩ => npToList x)

/-- `convert_numpy_types` from `utils/utils.py` lines 787-802: numpy scalars
become plain scalars, arrays become nested lists via `tolist`, lists and tuples
are rebuilt as lists of converted items, dict values are converted in place,
and everything else is returned unchanged. -/
def convert_numpy_types : PyObj → PyObj
  | .npInt n => .pInt n
  | .npFloat q => .pFloat q
  | .npBool b => .pBool b
  | .npArray a => npToList a
  | .pList xs => .pList (xs.attach.map fun ⟨x, _⟩ => convert_numpy_types x)
  | .pTuple xs => .pList (xs.attach.map fun ⟨x, _⟩ => convert_numpy_types x)
  | .pDict kvs => .pDict (kvs.attach.map fun ⟨⟨k, v⟩, _⟩ => (k, convert_numpy_types v))
  | .pInt n => .pInt n
  | .pFloat q => .pFloat q
  | .pBool b => .pBool b
  | .pStr s => .pStr s
decreasing_by
  all_goals
    first
      | (rename_i h
         have hlt := List.sizeOf_lt_of_mem h
         simp_wf
         omega)
      | (rename_i h
         have hlt := List.sizeOf_lt_of_mem h
         simp only [Prod.mk.sizeOf_spec] at hlt
         simp_wf
         omega)

/-- A response value is JSON-native when no numpy scalar, numpy array or tuple
remains anywhere in it: only plain integers, floats, booleans, strings, lists
and string-keyed mappings. -/
def isNativeObj : PyObj → Bool
  | .pInt _ => true
  | .pFloat _ => true
  | .pBool _ => true
  | .pStr _ => true
  | .npInt _ => false
  | .npFloat _ => false
  | .npBool _ => false
  | .npArray _ => false
  | .pList xs => xs.attach.all fun ⟨x, _⟩ => isNativeObj x
  | .pTuple _ => false
  | .pDict kvs => kvs.attach.all fun ⟨⟨_, v⟩, _⟩ => isNativeObj v
decreasing_by
  all_goals
    first
      | (rename_i h
         have hlt := List.sizeOf_lt_of_mem h
         simp_wf
         omega)
      | (rename_i h
         have hlt := List.sizeOf_lt_of_mem h
         simp only [Prod.mk.sizeOf_spec] at hlt
         simp_wf
         omega)

theorem npToList_native (a : NpArr) : isNativeObj (npToList a) = true := by
  induction a using npToList.induct with
  | case1 n => simp [npToList, isNativeObj]
  | case2 q => simp [npToList, isNativeObj]
  | case3 b => simp [npToList, isNativeObj]
  | case4 xs ih =>
      simp only [npToList, isNativeObj, List.all_eq_true, List.mem_attach, true_implies]
      rintro ⟨b, hb⟩
      obtain ⟨⟨y, hy⟩, -, rfl⟩ := List.mem_map.mp hb
      exact ih y hy

/-- C8: `convert_numpy_types` is total on any nested structure of dicts, lists,
tuples, numpy scalars and numeric arrays, and its output is JSON-native: no
numpy scalar or array (and no tuple) survives at any position. -/
theorem C8_convert_numpy_types_total (obj : PyObj) :
    isNativeObj (convert_numpy_types obj) = true := by
  induction obj using convert_numpy_types.induct with
  | case1 n => simp [convert_numpy_types, isNativeObj]
  | case2 q => simp [convert_numpy_types, isNativeObj]
  | case3 b => simp [convert_numpy_types, isNativeObj]
  | case4 a =>
      simp only [convert_numpy_types]
      exact npToList_native a
  | case5 xs ih =>
      simp only [convert_numpy_types, isNativeObj, List.all_eq_true, List.mem_attach,
        true_implies]
      rintro ⟨b, hb⟩
      obtain ⟨⟨y, hy⟩, -, rfl⟩ := List.mem_map.mp hb
      exact ih y hy
  | case6 xs ih =>
      simp only [convert_numpy_types, isNativeObj, List.all_eq_true, List.mem_attach,
        true_implies]
      rintro ⟨b, hb⟩
      obtain ⟨⟨y, hy⟩, -, rfl⟩ := List.mem_map.mp hb
      exact ih y hy
  | case7 kvs ih =>
      simp only [convert_numpy_types, isNativeObj, List.all_eq_true, List.mem_attach,
        true_implies]
      rintro ⟨b, hb⟩
      obtain ⟨⟨⟨k, v⟩, hkv⟩, -, rfl⟩ := List.mem_map.mp hb
      exact ih k v hkv
  | case8 n => simp [convert_numpy_types, isNativeObj]
  | case9 q => simp [convert_numpy_types, isNativeObj]
  | case10 b => simp [convert_numpy_types, isNativeObj]
  | case11 s => simp [convert_numpy_types, isNativeObj]

/-! ### Request payloads, encoders and errors (`api/main.py`) -/

/-- A JSON request payload: a Python dict keyed by feature name. -/
abbrev Payload := List (String × Val)

/-- The loaded Encoder Set (`encoders.pkl`): for each categorical feature, the
fitted `LabelEncoder.classes_` — the ordered vocabulary of known string
values; `transform` maps a value to its index in that list. -/
abbrev Encoders := List (String × List String)

/-- The distinct `HTTPException`s the predict-family handlers can raise,
carrying the data their detail strings are formatted from. -/
inductive PredictError where
  | modelNotLoaded
  | unknownCategory (feature : String) (value : Val) (valid : List String)
  | missingFeatures (missing : List String)
  | sampleMissingFeatures (index : Nat) (missing : List String)
  | samplesKeyMissing
  | samplesEmpty
  | predictionFailed
deriving DecidableEq, Repr

/-- The HTTP status code each error is raised with in `api/main.py`. -/
def statusCode : PredictError → Nat
  | .modelNotLoaded => 503
  | .predictionFailed => 500
  | _ => 400

/-- Python `k in payload` on the dict. -/
def dictHas (p : Payload) (k : String) : Bool :=
  p.any (fun kv => kv.1 == k)

/-- Python `payload[k] = v` on a dict that already holds `k` (assignment in
`apply_categorical_encoding` happens only after a membership check). -/
def dictSet : Payload → String → Val → Payload
  | [], _, _ => []
  | kv :: rest, k, v => (if kv.1 = k then (k, v) else kv) :: dictSet rest k v

/-- `original_value not in encoder.classes_`, negated: a payload value matches
the vocabulary only when it is the string of a known class (a non-string value
compares unequal to every entry of the string array). -/
def valueInClasses (v : Val) (classes : List String) : Bool :=
  match v with
  | .vStr s => classes.contains s
  | _ => false

/-- `int(encoder.transform([original_value])[0])`: the index of the value in
the encoder's ordered vocabulary. -/
def encodeValue (v : Val) (classes : List String) : Val :=
  match v with
  | .vStr s => .vInt (Int.ofNat (classes.indexOf s))
  | _ => v

/-- The loop body of `apply_categorical_encoding` (`api/main.py` lines
104-119): walk the encoder dict in order; for each feature present in the
payload, reject an out-of-vocabulary value with a 400 error naming the
feature, the value and the full vocabulary, otherwise replace the value with
its integer code. -/
def applyEncAux : Payload → Encoders → Except PredictError Payload
  | p, [] => .ok p
  | p, (f, classes) :: rest =>
      match p.lookup f with
      | none => applyEncAux p rest
      | some v =>
          if valueInClasses v classes then
            applyEncAux (dictSet p f (encodeValue v classes)) rest
          else
            .error (.unknownCategory f v classes)

/-- `apply_categorical_encoding` from `api/main.py` lines 86-121: with a falsy
encoder dict the payload is returned unchanged; otherwise the encoders are
applied in order. -/
def apply_categorical_encoding (payload : Payload) (encoders : Encoders) :
    Except PredictError Payload :=
  if encoders.isEmpty then .ok payload else applyEncAux payload encoders

/-- The `if encoders:` guard in the handlers: encoding runs only when an
encoder dict is loaded and non-empty (`None` and `{}` are both falsy). -/
def encStep (encoders : Option Encoders) (payload : Payload) :
    Except PredictError Payload :=
  match encoders with
  | none => .ok payload
  | some e => if e.isEmpty then .ok payload else apply_categorical_encoding payload e

/-! ### Feature schema and response formatting (`utils/utils.py` lines 805-851) -/

/-- The parts of the `feature_info.json` document the request path reads:
`feature_names`, `task_type` and `target_column` (each of the latter two may be
absent). -/
structure FeatureInfo where
  feature_names : List String
  task_type : Option String
  target_column : Option String
deriving DecidableEq, Repr

/-- Python truthiness of an optional string (`if target_column:`):
`None` and the empty string are falsy. -/
def truthyStr : Option String → Bool
  | none => false
  | some s => !(s == "")

/-- Python `max` over a list, `None` on the empty list. -/
def listMax : List ℚ → Option ℚ
  | [] => none
  | x :: xs => some (xs.foldl max x)

/-- Python `str()` of a payload value, used only to build the clustering
display label `"Cluster_<id>"`; the numeric rendering is `toString` of the
exact value. -/
def renderVal : Val → String
  | .vInt n => toString n
  | .vFloat q => toString q
  | .vStr s => s
  | .vBool b => if b then "True" else "False"

/-- The clustering display label `f"Cluster_{prediction_value}"`, or
`"Unknown"` when the prediction value is `None`. -/
def clusterLabel : Option Val → String
  | some v => "Cluster_" ++ renderVal v
  | none => "Unknown"

/-- The JSON object a prediction handler returns.  Every key the source can
set is a field here; `none` means the key is absent from the dict. -/
structure Response where
  prediction : Option Val
  task_type : String
  probabilities : Option (List ℚ)
  confidence : Option ℚ
  predicted_class : Option Val
  predicted_value : Option Val
  cluster_id : Option Val
  cluster : Option String
  input_features : Payload
  sample_index : Option Nat
deriving DecidableEq, Repr

/-- `format_prediction_response` from `utils/utils.py` lines 813-851:
`prediction` is the first element of the (already converted) prediction list
when it is non-empty; the classification branch adds `probabilities` and
`confidence` when a non-empty probability list was produced upstream and
`predicted_class` when `target_column` is truthy; regression adds
`predicted_value`; clustering adds `cluster_id` and the display label.
The caller fills `input_features` and `sample_index` afterwards. -/
def format_prediction_response (prediction : List Val) (fi : FeatureInfo)
    (probabilities : Option (List ℚ)) : Response :=
  let task_type := strLower (fi.task_type.getD "unknown")
  let prediction_value := prediction.head?
  let base : Response :=
    { prediction := prediction_value, task_type := task_type, probabilities := none,
      confidence := none, predicted_class := none, predicted_value := none,
      cluster_id := none, cluster := none, input_features := [], sample_index := none }
  if task_type = "classification" then
    let withProbs :=
      match probabilities with
      | some pl =>
          if 0 < pl.length then
            { base with probabilities := some pl, confidence := listMax pl }
          else base
      | none => base
    if truthyStr fi.target_column then
      { withProbs with predicted_class := prediction_value }
    else withProbs
  else if task_type = "regression" then
    { base with predicted_value := prediction_value }
  else if task_type = "clustering" then
    { base with
      cluster_id := prediction_value
      cluster := some (clusterLabel prediction_value) }
  else base

/-! ### The request handlers (`api/main.py` lines 170-342) -/

/-- The opaque fitted pipeline: maps the ordered input rows to the raw
prediction array, or fails (any exception from `model.predict`). -/
abbrev Pipeline := List Payload → Except Unit RawPred

/-- The `input_df = input_df[feature_names]` column reordering: the payload's
entries in schema order. -/
def orderedRow (feature_names : List String) (payload : Payload) : Payload :=
  feature_names.filterMap (fun f => (payload.lookup f).map (fun v => (f, v)))

/-- The `POST /predict` handler (`api/main.py` lines 170-242): 503 when no
bundle is loaded; categorical encoding (when encoders are truthy); 400 listing
the features of `feature_names` absent from the payload; the pipeline call and
`make_predictions` (500 on failure); response formatting; and the
`input_features` echo of the (encoded) payload.  The `pd.to_numeric` coercion
of the row is absorbed into the opaque pipeline argument. -/
def predict (pipeline : Option Pipeline) (feature_info : Option FeatureInfo)
    (encoders : Option Encoders) (payload : Payload) : Except PredictError Response :=
  match pipeline, feature_info with
  | some pf, some fi =>
      match encStep encoders payload with
      | .error err => .error err
      | .ok encoded =>
          let missing := fi.feature_names.filter (fun f => !(dictHas encoded f))
          if 0 < missing.length then
            .error (.missingFeatures missing)
          else
            let task_type := strLower (fi.task_type.getD "classification")
            match pf [orderedRow fi.feature_names encoded] with
            | .error _ => .error .predictionFailed
            | .ok raw =>
                let pp := make_predictions raw task_type
                match pp.2 with
                | some pss =>
                    match pss with
                    | [] => .error .predictionFailed
                    | p0 :: _ =>
                        let r := format_prediction_response pp.1 fi (some p0)
                        .ok { r with input_features := encoded }
                | none =>
                    let r := format_prediction_response pp.1 fi none
                    .ok { r with input_features := encoded }
  | _, _ => .error .modelNotLoaded

/-- The per-sample encoding loop of `predict_batch` (`api/main.py` lines
275-279): encode each sample in order, aborting on the first failure. -/
def encodeSamples (encoders : Encoders) : List Payload → Except PredictError (List Payload)
  | [] => .ok []
  | s :: rest =>
      match apply_categorical_encoding s encoders with
      | .error err => .error err
      | .ok s' =>
          match encodeSamples encoders rest with
          | .error err => .error err
          | .ok rest' => .ok (s' :: rest')

/-- The `if encoders:` guard of the batch handler. -/
def encStepBatch (encoders : Option Encoders) (samples : List Payload) :
    Except PredictError (List Payload) :=
  match encoders with
  | none => .ok samples
  | some e => if e.isEmpty then .ok samples else encodeSamples e samples

/-- The batch validation loop (`api/main.py` lines 290-294): the first sample
with missing features, by zero-based index, together with its missing list. -/
def firstMissing (feature_names : List String) : List Payload → Nat → Option (Nat × List String)
  | [], _ => none
  | s :: rest, i =>
      let missing := feature_names.filter (fun f => !(dictHas s f))
      if 0 < missing.length then some (i, missing)
      else firstMissing feature_names rest (i + 1)

/-- The JSON object `predict_batch` returns on success. -/
structure BatchResponse where
  predictions : List Response
  total_samples : Nat
  task_type : String
deriving DecidableEq, Repr

/-- `probabilities[i]` when probabilities were produced (in the source an
out-of-range index would raise; here the lengths agree by construction of
`make_predictions`). -/
def probAt (probabilities : Option (List (List ℚ))) (i : Nat) : Option (List ℚ) :=
  match probabilities with
  | none => none
  | some pss => pss[i]?

/-- The body of the result-formatting loop of `predict_batch`, iterating over
the zipped (sample, prediction) pairs with the running index `i`. -/
def buildResultsAux (fi : FeatureInfo) (probabilities : Option (List (List ℚ))) :
    List (Payload × Val) → Nat → List Response
  | [], _ => []
  | sp :: rest, i =>
      { format_prediction_response [sp.2] fi (probAt probabilities i) with
          input_features := sp.1, sample_index := some i } ::
        buildResultsAux fi probabilities rest (i + 1)

/-- The result-formatting loop of `predict_batch` (`api/main.py` lines
324-330): `zip(samples, predictions)` with `enumerate`, each result carrying
the (encoded) sample as `input_features` and its index as `sample_index`. -/
def buildResults (samples : List Payload) (predictions : List Val)
    (probabilities : Option (List (List ℚ))) (fi : FeatureInfo) : List Response :=
  buildResultsAux fi probabilities (samples.zip predictions) 0

/-- The `POST /predict/batch` handler (`api/main.py` lines 254-342): 503 when
unloaded; 400 when the `samples` key is missing or not a non-empty list; batch
categorical encoding; per-sample missing-feature validation (first failure
wins, with the sample index); one combined pipeline invocation; per-sample
formatting. -/
def predict_batch (pipeline : Option Pipeline) (feature_info : Option FeatureInfo)
    (encoders : Option Encoders) (samples? : Option (List Payload)) :
    Except PredictError BatchResponse :=
  match pipeline, feature_info with
  | some pf, some fi =>
      match samples? with
      | none => .error .samplesKeyMissing
      | some samples =>
          if samples.isEmpty then .error .samplesEmpty
          else
            match encStepBatch encoders samples with
            | .error err => .error err
            | .ok encoded =>
                match firstMissing fi.feature_names encoded 0 with
                | some im => .error (.sampleMissingFeatures im.1 im.2)
                | none =>
                    let task_type := strLower (fi.task_type.getD "classification")
                    match pf (encoded.map (orderedRow fi.feature_names)) with
                    | .error _ => .error .predictionFailed
                    | .ok raw =>
                        let pp := make_predictions raw task_type
                        .ok { predictions := buildResults encoded pp.1 pp.2 fi,
                              total_samples := encoded.length,
                              task_type := task_type }
  | _, _ => .error .modelNotLoaded

/-! ### Dictionary and encoding lemmas -/

theorem lookup_cons_self {β : Type} (k : String) (b : β) (p : List (String × β)) :
    ((k, b) :: p).lookup k = some b := by
  simp [List.lookup]

theorem lookup_cons_ne {β : Type} (k g : String) (b : β) (p : List (String × β)) (h : g ≠ k) :
    ((k, b) :: p).lookup g = p.lookup g := by
  simp [List.lookup, beq_eq_false_iff_ne.mpr h]

theorem dictSet_lookup_ne (p : Payload) (k g : String) (v : Val) (h : g ≠ k) :
    (dictSet p k v).lookup g = p.lookup g := by
  induction p with
  | nil => rfl
  | cons kv rest ih =>
      obtain ⟨a, b⟩ := kv
      by_cases hak : a = k
      · subst hak
        simp only [dictSet, if_pos rfl]
        rw [lookup_cons_ne _ _ _ _ h, lookup_cons_ne _ _ _ _ (by simpa using h)]
        exact ih
      · simp only [dictSet, if_neg hak]
        by_cases hga : g = a
        · subst hga; rw [lookup_cons_self, lookup_cons_self]
        · rw [lookup_cons_ne _ _ _ _ hga, lookup_cons_ne _ _ _ _ hga]
          exact ih

theorem dictSet_keys (p : Payload) (k : String) (v : Val) :
    (dictSet p k v).map Prod.fst = p.map Prod.fst := by
  induction p with
  | nil => rfl
  | cons kv rest ih =>
      obtain ⟨a, b⟩ := kv
      by_cases hak : a = k
      · subst hak; simp [dictSet, ih]
      · simp [dictSet, hak, ih]

theorem dictHas_iff_keys (p : Payload) (f : String) :
    dictHas p f = true ↔ f ∈ p.map Prod.fst := by
  simp only [dictHas, List.any_eq_true, List.mem_map, beq_iff_eq]

theorem lookup_none_iff {β : Type} (p : List (String × β)) (g : String) :
    p.lookup g = none ↔ g ∉ p.map Prod.fst := by
  induction p with
  | nil => simp [List.lookup]
  | cons kv rest ih =>
      obtain ⟨a, b⟩ := kv
      by_cases h : g = a
      · subst h; simp [lookup_cons_self]
      · rw [lookup_cons_ne _ _ _ _ h]
        simp only [List.map_cons, List.mem_cons, ih]
        constructor
        · intro hng hor
          rcases hor with hga | hmem
          · exact h hga
          · exact hng hmem
        · intro hn hmem
          exact hn (Or.inr hmem)

theorem lookup_of_mem_nodup {β : Type} (p : List (String × β))
    (hp : (p.map Prod.fst).Nodup) (k : String) (v : β)
    (h : (k, v) ∈ p) : p.lookup k = some v := by
  induction p with
  | nil => cases h
  | cons kv rest ih =>
      obtain ⟨a, b⟩ := kv
      simp only [List.map_cons, List.nodup_cons] at hp
      rcases List.mem_cons.mp h with heq | hmem
      · injection heq with h1 h2
        subst h1; subst h2
        exact lookup_cons_self _ _ _
      · have hka : k ≠ a := by
          intro hk
          subst hk
          exact hp.1 (List.mem_map.mpr ⟨(k, v), hmem, rfl⟩)
        rw [lookup_cons_ne _ _ _ _ hka]
        exact ih hp.2 hmem

/-- What the full encoding pass computes on success: each payload entry whose
key the Encoder Set covers carries its integer code, every other entry is
untouched. -/
def encodeSpec : Payload → Encoders → Payload
  | [], _ => []
  | kv :: rest, e =>
      (match e.lookup kv.1 with
       | some classes => (kv.1, encodeValue kv.2 classes)
       | none => kv) :: encodeSpec rest e

theorem encodeSpec_lookup (p : Payload) (e : Encoders) (f : String) :
    (encodeSpec p e).lookup f =
      (p.lookup f).map (fun v =>
        match e.lookup f with
        | some classes => encodeValue v classes
        | none => v) := by
  induction p with
  | nil => rfl
  | cons kv rest ih =>
      obtain ⟨a, b⟩ := kv
      by_cases hfa : f = a
      · subst hfa
        cases he : e.lookup f <;>
          simp [encodeSpec, he, lookup_cons_self]
      · cases he : e.lookup a <;>
          · simp only [encodeSpec, he]
            rw [lookup_cons_ne _ _ _ _ hfa, lookup_cons_ne _ _ _ _ hfa]
            exact ih

/-- The first encoder entry (in dict order) whose feature is present in the
payload with an out-of-vocabulary value, together with that value and the
vocabulary. -/
def firstEncFailure (payload : Payload) : Encoders → Option (String × Val × List String)
  | [] => none
  | (f, classes) :: rest =>
      match payload.lookup f with
      | none => firstEncFailure payload rest
      | some v =>
          if valueInClasses v classes then firstEncFailure payload rest
          else some (f, v, classes)

theorem firstEncFailure_dictSet (p : Payload) (k : String) (w : Val) (e : Encoders)
    (hk : k ∉ e.map Prod.fst) :
    firstEncFailure (dictSet p k w) e = firstEncFailure p e := by
  induction e with
  | nil => rfl
  | cons fc rest ih =>
      obtain ⟨f, classes⟩ := fc
      simp only [List.map_cons, List.mem_cons] at hk
      push_neg at hk
      have hfk : f ≠ k := fun h => hk.1 h.symm
      simp only [firstEncFailure, dictSet_lookup_ne p k f w hfk]
      cases hpl : p.lookup f with
      | none => simp only [hpl]; exact ih hk.2
      | some v =>
          simp only [hpl]
          by_cases hv : valueInClasses v classes = true
          · simp only [hv, if_true]; exact ih hk.2
          · simp only [Bool.not_eq_true] at hv
            simp only [hv, Bool.false_eq_true, if_false]

theorem firstEncFailure_spec (e : Encoders) (p : Payload) (f : String) (v : Val)
    (classes : List String) (h : firstEncFailure p e = some (f, v, classes)) :
    (f, classes) ∈ e ∧ p.lookup f = some v ∧ valueInClasses v classes = false := by
  induction e with
  | nil => cases h
  | cons fc rest ih =>
      obtain ⟨g, cs⟩ := fc
      cases hpl : p.lookup g with
      | none =>
          simp only [firstEncFailure, hpl] at h
          obtain ⟨h1, h2, h3⟩ := ih h
          exact ⟨List.mem_cons_of_mem _ h1, h2, h3⟩
      | some w =>
          simp only [firstEncFailure, hpl] at h
          by_cases hv : valueInClasses w cs = true
          · rw [if_pos hv] at h
            obtain ⟨h1, h2, h3⟩ := ih h
            exact ⟨List.mem_cons_of_mem _ h1, h2, h3⟩
          · rw [if_neg hv] at h
            injection h with h'
            injection h' with hf hrest
            injection hrest with hv' hc
            subst hf; subst hv'; subst hc
            exact ⟨List.mem_cons_self _ _, hpl, Bool.not_eq_true _ ▸ hv⟩

theorem noFailure_pass (e : Encoders) (p : Payload)
    (h : firstEncFailure p e = none) :
    ∀ f classes, (f, classes) ∈ e → ∀ v, p.lookup f = some v →
      valueInClasses v classes = true := by
  induction e with
  | nil => intro f classes hm; cases hm
  | cons fc rest ih =>
      obtain ⟨g, cs⟩ := fc
      intro f classes hm v hv
      rcases List.mem_cons.mp hm with heq | hmem
      · injection heq with h1 h2
        subst h1; subst h2
        simp only [firstEncFailure, hv] at h
        by_cases hvc : valueInClasses v classes = true
        · exact hvc
        · rw [if_neg hvc] at h; cases h
      · cases hpl : p.lookup g with
        | none =>
            simp only [firstEncFailure, hpl] at h
            exact ih h f classes hmem v hv
        | some w =>
            simp only [firstEncFailure, hpl] at h
            by_cases hvc : valueInClasses w cs = true
            · rw [if_pos hvc] at h
              exact ih h f classes hmem v hv
            · rw [if_neg hvc] at h; cases h

theorem applyEncAux_error_of_firstFailure (e : Encoders) :
    ∀ p : Payload, (e.map Prod.fst).Nodup →
    ∀ f v classes, firstEncFailure p e = some (f, v, classes) →
    applyEncAux p e = .error (.unknownCategory f v classes) := by
  induction e with
  | nil => intro p _ f v c h; cases h
  | cons fc rest ih =>
      obtain ⟨g, cs⟩ := fc
      intro p hnd f v c h
      simp only [List.map_cons, List.nodup_cons] at hnd
      cases hpl : p.lookup g with
      | none =>
          simp only [firstEncFailure, hpl] at h
          simp only [applyEncAux, hpl]
          exact ih p hnd.2 f v c h
      | some w =>
          simp only [firstEncFailure, hpl] at h
          simp only [applyEncAux, hpl]
          by_cases hv : valueInClasses w cs = true
          · rw [if_pos hv] at h
            simp only [hv, if_true]
            refine ih _ hnd.2 f v c ?_
            rw [firstEncFailure_dictSet p g (encodeValue w cs) rest hnd.1]
            exact h
          · rw [if_neg hv] at h
            simp only [Bool.not_eq_true] at hv
            simp only [hv, Bool.false_eq_true, if_false]
            injection h with h'
            injection h' with hf hrest
            injection hrest with hv' hc
            subst hf; subst hv'; subst hc
            rfl

theorem encodeSpec_nil (p : Payload) : encodeSpec p [] = p := by
  induction p with
  | nil => rfl
  | cons kv rest ih => simp only [encodeSpec, List.lookup]; rw [ih]

theorem dictSet_not_mem (p : Payload) (g : String) (v : Val)
    (h : g ∉ p.map Prod.fst) : dictSet p g v = p := by
  induction p with
  | nil => rfl
  | cons kv rest ih =>
      obtain ⟨a, b⟩ := kv
      simp only [List.map_cons, List.mem_cons] at h
      push_neg at h
      have hag : a ≠ g := fun hh => h.1 hh.symm
      simp only [dictSet, if_neg hag]
      rw [ih h.2]

theorem encodeSpec_skip_head (p : Payload) (g : String) (cs : List String) (rest : Encoders)
    (h : g ∉ p.map Prod.fst) : encodeSpec p ((g, cs) :: rest) = encodeSpec p rest := by
  induction p with
  | nil => rfl
  | cons kv prest ih =>
      obtain ⟨a, b⟩ := kv
      simp only [List.map_cons, List.mem_cons] at h
      push_neg at h
      have hag : a ≠ g := fun hh => h.1 hh.symm
      simp only [encodeSpec]
      rw [lookup_cons_ne _ _ _ _ hag, ih h.2]

theorem encodeSpec_dictSet_cons (p : Payload) (g : String) (cs : List String) (w : Val)
    (rest : Encoders) (hp : (p.map Prod.fst).Nodup) (hgrest : g ∉ rest.map Prod.fst)
    (hpl : p.lookup g = some w) :
    encodeSpec (dictSet p g (encodeValue w cs)) rest = encodeSpec p ((g, cs) :: rest) := by
  induction p with
  | nil => rfl
  | cons kv prest ih =>
      obtain ⟨a, b⟩ := kv
      simp only [List.map_cons, List.nodup_cons] at hp
      by_cases hag : a = g
      · subst hag
        have hwb : w = b := by
          rw [lookup_cons_self] at hpl
          injection hpl with hh
          exact hh.symm
        subst hwb
        have hrestl : rest.lookup a = none := (lookup_none_iff rest a).mpr hgrest
        simp only [dictSet, encodeSpec, eq_self_iff_true, if_true, hrestl,
          lookup_cons_self, dictSet_not_mem prest a (encodeValue w cs) hp.1,
          encodeSpec_skip_head prest a cs rest hp.1]
      · have hpl' : prest.lookup g = some w := by
          rw [lookup_cons_ne _ _ _ _ (fun hh => hag hh.symm)] at hpl
          exact hpl
        have hlk : ((g, cs) :: rest).lookup a = rest.lookup a :=
          lookup_cons_ne _ _ _ _ hag
        simp only [dictSet, if_neg hag, encodeSpec, hlk, ih hp.2 hpl']

theorem applyEncAux_ok_of_noFailure (e : Encoders) :
    ∀ p : Payload, (e.map Prod.fst).Nodup → (p.map Prod.fst).Nodup →
    firstEncFailure p e = none →
    applyEncAux p e = .ok (encodeSpec p e) := by
  induction e with
  | nil =>
      intro p _ _ _
      simp only [applyEncAux, encodeSpec_nil]
  | cons fc rest ih =>
      obtain ⟨g, cs⟩ := fc
      intro p hnd hp h
      simp only [List.map_cons, List.nodup_cons] at hnd
      cases hpl : p.lookup g with
      | none =>
          simp only [firstEncFailure, hpl] at h
          simp only [applyEncAux, hpl]
          rw [ih p hnd.2 hp h]
          rw [encodeSpec_skip_head p g cs rest ((lookup_none_iff p g).mp hpl)]
      | some w =>
          simp only [firstEncFailure, hpl] at h
          have hv : valueInClasses w cs = true := by
            by_cases hvc : valueInClasses w cs = true
            · exact hvc
            · rw [if_neg hvc] at h; cases h
          rw [if_pos hv] at h
          simp only [applyEncAux, hpl, hv, if_true]
          have hkeys : ((dictSet p g (encodeValue w cs)).map Prod.fst).Nodup := by
            rw [dictSet_keys]; exact hp
          have hff : firstEncFailure (dictSet p g (encodeValue w cs)) rest = none := by
            rw [firstEncFailure_dictSet p g (encodeValue w cs) rest hnd.1]
            exact h
          rw [ih _ hnd.2 hkeys hff]
          rw [encodeSpec_dictSet_cons p g cs w rest hp hnd.1 hpl]

theorem apply_eq_applyEncAux (p : Payload) (e : Encoders) :
    apply_categorical_encoding p e = applyEncAux p e := by
  cases e with
  | nil => rfl
  | cons fc rest => rfl

/-- Concrete payload used by witnesses: one categorical and one numeric feature. -/
def encPayloadEx : Payload := [("color", Val.vStr "red"), ("age", Val.vInt 30)]

/-- Concrete Encoder Set used by witnesses: vocabulary `["blue", "red"]` for
`"color"`. -/
def encodersEx : Encoders := [("color", ["blue", "red"])]

/-- C5: with a loaded Encoder Set, the Categorical Encoding Applier replaces
each feature present in both the payload and the Encoder Set by its integer
code (its index in the encoder's vocabulary) when the value is in the
vocabulary; the first out-of-vocabulary value aborts with a 400 error carrying
the feature, the offending value and the complete vocabulary; features the
Encoder Set does not cover are unchanged; and with no (or an empty) Encoder
Set the step is a no-op pass-through. -/
theorem C5_categorical_encoding (payload : Payload) (encoders : Encoders)
    (hp : (payload.map Prod.fst).Nodup) (he : (encoders.map Prod.fst).Nodup) :
    (encStep none payload = Except.ok payload ∧
     apply_categorical_encoding payload [] = Except.ok payload) ∧
    (firstEncFailure payload encoders = none →
      ∃ p', apply_categorical_encoding payload encoders = Except.ok p' ∧
        (∀ f classes s, (f, classes) ∈ encoders →
            payload.lookup f = some (Val.vStr s) →
            s ∈ classes ∧
              p'.lookup f = some (Val.vInt (Int.ofNat (classes.indexOf s)))) ∧
        (∀ g, g ∉ encoders.map Prod.fst → p'.lookup g = payload.lookup g)) ∧
    (∀ f v classes, firstEncFailure payload encoders = some (f, v, classes) →
      apply_categorical_encoding payload encoders =
          Except.error (PredictError.unknownCategory f v classes) ∧
        statusCode (PredictError.unknownCategory f v classes) = 400 ∧
        (f, classes) ∈ encoders ∧ payload.lookup f = some v ∧
        valueInClasses v classes = false) := by
  refine ⟨⟨rfl, rfl⟩, ?_, ?_⟩
  · intro h
    refine ⟨encodeSpec payload encoders, ?_, ?_, ?_⟩
    · rw [apply_eq_applyEncAux]
      exact applyEncAux_ok_of_noFailure encoders payload he hp h
    · intro f classes s hm hl
      have hin : valueInClasses (Val.vStr s) classes = true :=
        noFailure_pass encoders payload h f classes hm (Val.vStr s) hl
      have hmem : s ∈ classes := by
        simpa [valueInClasses] using hin
      refine ⟨hmem, ?_⟩
      rw [encodeSpec_lookup, hl, lookup_of_mem_nodup encoders he f classes hm]
      rfl
    · intro g hg
      rw [encodeSpec_lookup, (lookup_none_iff encoders g).mpr hg]
      cases payload.lookup g <;> rfl
  · intro f v classes h
    obtain ⟨h1, h2, h3⟩ := firstEncFailure_spec encoders payload f v classes h
    refine ⟨?_, rfl, h1, h2, h3⟩
    rw [apply_eq_applyEncAux]
    exact applyEncAux_error_of_firstFailure encoders payload he f v classes h

/-- Witness for C5 at the concrete payload `{"color": "red", "age": 30}` and
the encoder vocabulary `["blue", "red"]` for `"color"`. -/
theorem C5_categorical_encoding_witness :
    (encStep none encPayloadEx = Except.ok encPayloadEx ∧
     apply_categorical_encoding encPayloadEx [] = Except.ok encPayloadEx) ∧
    (firstEncFailure encPayloadEx encodersEx = none →
      ∃ p', apply_categorical_encoding encPayloadEx encodersEx = Except.ok p' ∧
        (∀ f classes s, (f, classes) ∈ encodersEx →
            encPayloadEx.lookup f = some (Val.vStr s) →
            s ∈ classes ∧
              p'.lookup f = some (Val.vInt (Int.ofNat (classes.indexOf s)))) ∧
        (∀ g, g ∉ encodersEx.map Prod.fst → p'.lookup g = encPayloadEx.lookup g)) ∧
    (∀ f v classes, firstEncFailure encPayloadEx encodersEx = some (f, v, classes) →
      apply_categorical_encoding encPayloadEx encodersEx =
          Except.error (PredictError.unknownCategory f v classes) ∧
        statusCode (PredictError.unknownCategory f v classes) = 400 ∧
        (f, classes) ∈ encodersEx ∧ encPayloadEx.lookup f = some v ∧
        valueInClasses v classes = false) :=
  C5_categorical_encoding encPayloadEx encodersEx (by decide) (by decide)

/-! ### Claims about the request handlers -/

instance {e a : Type} [DecidableEq e] [DecidableEq a] : DecidableEq (Except e a) :=
  fun x y =>
    match x, y with
    | .ok u, .ok v =>
        if h : u = v then isTrue (by rw [h])
        else isFalse (by intro hc; cases hc; exact h rfl)
    | .error u, .error v =>
        if h : u = v then isTrue (by rw [h])
        else isFalse (by intro hc; cases hc; exact h rfl)
    | .ok _, .error _ => isFalse (by intro hc; cases hc)
    | .error _, .ok _ => isFalse (by intro hc; cases hc)

/-- The deterministic pre-pipeline rejection of a `/predict` request: the
encoding step's error if it fails, else the missing-feature error if any
required feature is absent, else none. -/
def requestRejected (fi : FeatureInfo) (enc? : Option Encoders) (payload : Payload) :
    Option PredictError :=
  match encStep enc? payload with
  | .error err => some err
  | .ok encoded =>
      let missing := fi.feature_names.filter (fun f => !(dictHas encoded f))
      if 0 < missing.length then some (.missingFeatures missing) else none

theorem predict_of_requestRejected (fi : FeatureInfo) (enc? : Option Encoders)
    (payload : Payload) (errR : PredictError)
    (hrej : requestRejected fi enc? payload = some errR) (pf : Pipeline) :
    predict (some pf) (some fi) enc? payload = Except.error errR := by
  cases henc : encStep enc? payload with
  | error e2 =>
      simp only [requestRejected, henc] at hrej
      injection hrej with h
      subst h
      simp only [predict, henc]
  | ok enc' =>
      simp only [requestRejected, henc] at hrej
      by_cases hm : 0 < (fi.feature_names.filter (fun f => !(dictHas enc' f))).length
      · rw [if_pos hm] at hrej
        injection hrej with h
        subst h
        simp only [predict, henc]
        rw [if_pos hm]
      · rw [if_neg hm] at hrej
        cases hrej

/-- C6: the not-ready check precedes everything (any `/predict` request against
an unloaded bundle yields the 503 error, whatever the payload); categorical
encoding runs strictly before missing-feature validation (an encoding error is
the response even when features are also missing); and a rejected request
yields the rejection error for every pipeline — the pipeline is never invoked
on an unloaded bundle or an invalid payload. -/
theorem C6_not_ready_first_and_order (fi : FeatureInfo) (enc? : Option Encoders)
    (payload : Payload) (pipeline? : Option Pipeline) (fi? : Option FeatureInfo)
    (e : Encoders) (err errR : PredictError) (pf pfAlt : Pipeline)
    (hencErr : encStep (some e) payload = Except.error err)
    (hrej : requestRejected fi enc? payload = some errR) :
    predict pipeline? none enc? payload = Except.error PredictError.modelNotLoaded ∧
    predict none fi? enc? payload = Except.error PredictError.modelNotLoaded ∧
    statusCode PredictError.modelNotLoaded = 503 ∧
    predict (some pf) (some fi) (some e) payload = Except.error err ∧
    predict (some pf) (some fi) enc? payload = Except.error errR ∧
    predict (some pf) (some fi) enc? payload = predict (some pfAlt) (some fi) enc? payload := by
  refine ⟨?_, ?_, rfl, ?_, ?_, ?_⟩
  · cases pipeline? <;> rfl
  · rfl
  · simp only [predict, hencErr]
  · exact predict_of_requestRejected fi enc? payload errR hrej pf
  · rw [predict_of_requestRejected fi enc? payload errR hrej pf,
      predict_of_requestRejected fi enc? payload errR hrej pfAlt]

/-- Concrete Feature Schema used by witnesses: two required features, a
classification task, and a truthy target column. -/
def fiEx : FeatureInfo :=
  { feature_names := ["color", "size"], task_type := some "classification",
    target_column := some "target" }

/-- Concrete pipeline used by witnesses: ignores its input and returns the
one-sample integer-dtype label array `[1]` (a discrete class label, so the
binary-probability branch is not taken). -/
def pipelineEx : Pipeline := fun _ => .ok ⟨PredData.one [1], false⟩

/-- Concrete pipeline that always raises, to witness pipeline-independence. -/
def pipelineFailEx : Pipeline := fun _ => .error ()

/-- Witness for C6: the payload `{"color": "green"}` (unknown category, and
also missing `"size"`) is rejected with the unknown-category 400 before
validation and before any pipeline call, and the unloaded bundle yields 503. -/
theorem C6_not_ready_first_and_order_witness :
    predict (some pipelineEx) none (some encodersEx) [("color", Val.vStr "green")] =
        Except.error PredictError.modelNotLoaded ∧
    predict none (some fiEx) (some encodersEx) [("color", Val.vStr "green")] =
        Except.error PredictError.modelNotLoaded ∧
    statusCode PredictError.modelNotLoaded = 503 ∧
    predict (some pipelineEx) (some fiEx) (some encodersEx) [("color", Val.vStr "green")] =
        Except.error (PredictError.unknownCategory "color" (Val.vStr "green") ["blue", "red"]) ∧
    predict (some pipelineEx) (some fiEx) (some encodersEx) [("color", Val.vStr "green")] =
        Except.error (PredictError.unknownCategory "color" (Val.vStr "green") ["blue", "red"]) ∧
    predict (some pipelineEx) (some fiEx) (some encodersEx) [("color", Val.vStr "green")] =
      predict (some pipelineFailEx) (some fiEx) (some encodersEx)
        [("color", Val.vStr "green")] :=
  C6_not_ready_first_and_order fiEx (some encodersEx) [("color", Val.vStr "green")]
    (some pipelineEx) (some fiEx) encodersEx
    (PredictError.unknownCategory "color" (Val.vStr "green") ["blue", "red"])
    (PredictError.unknownCategory "color" (Val.vStr "green") ["blue", "red"])
    pipelineEx pipelineFailEx (by decide) (by decide)

theorem applyEncAux_keys (e : Encoders) :
    ∀ p p' : Payload, applyEncAux p e = Except.ok p' →
      p'.map Prod.fst = p.map Prod.fst := by
  induction e with
  | nil =>
      intro p p' h
      injection h with h
      subst h
      rfl
  | cons fc rest ih =>
      obtain ⟨g, cs⟩ := fc
      intro p p' h
      cases hpl : p.lookup g with
      | none =>
          simp only [applyEncAux, hpl] at h
          exact ih p p' h
      | some v =>
          simp only [applyEncAux, hpl] at h
          by_cases hv : valueInClasses v cs = true
          · rw [if_pos hv] at h
            rw [ih _ _ h, dictSet_keys]
          · rw [if_neg hv] at h
            cases h

theorem encStep_keys (enc? : Option Encoders) (payload p' : Payload)
    (h : encStep enc? payload = Except.ok p') :
    p'.map Prod.fst = payload.map Prod.fst := by
  cases enc? with
  | none =>
      simp only [encStep] at h
      injection h with h
      subst h
      rfl
  | some e =>
      simp only [encStep] at h
      by_cases he : e.isEmpty
      · rw [if_pos he] at h
        injection h with h
        subst h
        rfl
      · rw [if_neg he, apply_eq_applyEncAux] at h
        exact applyEncAux_keys e payload p' h

theorem dictHas_eq_of_keys_eq (p p' : Payload)
    (h : p'.map Prod.fst = p.map Prod.fst) (f : String) :
    dictHas p' f = dictHas p f := by
  cases hb : dictHas p f with
  | true =>
      exact (dictHas_iff_keys p' f).mpr (h ▸ (dictHas_iff_keys p f).mp hb)
  | false =>
      cases hb' : dictHas p' f with
      | false => rfl
      | true =>
          have := (dictHas_iff_keys p' f).mp hb'
          rw [h] at this
          rw [(dictHas_iff_keys p f).mpr this] at hb
          cases hb

/-- C7 (amended): while a bundle is loaded and the payload's categorical
values encode successfully, a payload missing at least one feature name gets a
400 whose missing list is exactly the set of names in `feature_names` absent
from the payload — no false positives, no false negatives.  (As frozen the
claim is false: an unknown categorical value preempts the missing-feature
check, see the counterexample.) -/
theorem C7_missing_features_exact (pf : Pipeline) (fi : FeatureInfo)
    (enc? : Option Encoders) (payload p' : Payload) (f : String)
    (henc : encStep enc? payload = Except.ok p')
    (hmiss : fi.feature_names.filter (fun g => !(dictHas p' g)) ≠ []) :
    predict (some pf) (some fi) enc? payload =
      Except.error (PredictError.missingFeatures
        (fi.feature_names.filter (fun g => !(dictHas p' g)))) ∧
    statusCode (PredictError.missingFeatures
      (fi.feature_names.filter (fun g => !(dictHas p' g)))) = 400 ∧
    (f ∈ fi.feature_names.filter (fun g => !(dictHas p' g)) ↔
      f ∈ fi.feature_names ∧ dictHas payload f = false) := by
  have hm : 0 < (fi.feature_names.filter (fun g => !(dictHas p' g))).length :=
    List.length_pos.mpr hmiss
  refine ⟨?_, rfl, ?_⟩
  · simp only [predict, henc]
    rw [if_pos hm]
  · rw [List.mem_filter]
    have hkeys := encStep_keys enc? payload p' henc
    rw [dictHas_eq_of_keys_eq payload p' hkeys f]
    constructor
    · rintro ⟨h1, h2⟩
      exact ⟨h1, by simpa using h2⟩
    · rintro ⟨h1, h2⟩
      exact ⟨h1, by simpa using h2⟩

/-- C7 counterexample: the payload `{"color": "green"}` is missing the
required feature `"size"`, yet the endpoint's error is the unknown-category
error for `"color"` (encoding runs first), not the 400 listing exactly
`["size"]` that the claim demands for every payload missing a feature. -/
theorem C7_counterexample :
    ("size" ∈ fiEx.feature_names ∧
      dictHas [("color", Val.vStr "green")] "size" = false) ∧
    predict (some pipelineEx) (some fiEx) (some encodersEx)
        [("color", Val.vStr "green")] =
      Except.error (PredictError.unknownCategory "color" (Val.vStr "green")
        ["blue", "red"]) ∧
    PredictError.unknownCategory "color" (Val.vStr "green") ["blue", "red"] ≠
      PredictError.missingFeatures ["size"] := by
  decide

/-- Witness for C7 at the payload `{"color": "red"}` against the schema
requiring `["color", "size"]`: encoding succeeds and the endpoint returns the
400 listing exactly `["size"]`. -/
theorem C7_missing_features_exact_witness :
    predict (some pipelineEx) (some fiEx) (some encodersEx)
        [("color", Val.vStr "red")] =
      Except.error (PredictError.missingFeatures
        (fiEx.feature_names.filter
          (fun g => !(dictHas [("color", Val.vInt 1)] g)))) ∧
    statusCode (PredictError.missingFeatures
      (fiEx.feature_names.filter
        (fun g => !(dictHas [("color", Val.vInt 1)] g)))) = 400 ∧
    ("size" ∈ fiEx.feature_names.filter
        (fun g => !(dictHas [("color", Val.vInt 1)] g)) ↔
      "size" ∈ fiEx.feature_names ∧
        dictHas [("color", Val.vStr "red")] "size" = false) :=
  C7_missing_features_exact pipelineEx fiEx (some encodersEx)
    [("color", Val.vStr "red")] [("color", Val.vInt 1)] "size"
    (by decide) (by decide)

theorem predict_ok_input_features (pf : Pipeline) (fi : FeatureInfo)
    (enc? : Option Encoders) (payload p' : Payload) (r : Response)
    (henc : encStep enc? payload = Except.ok p')
    (hok : predict (some pf) (some fi) enc? payload = Except.ok r) :
    r.input_features = p' := by
  simp only [predict, henc] at hok
  by_cases hm : 0 < (fi.feature_names.filter (fun f => !(dictHas p' f))).length
  · rw [if_pos hm] at hok
    cases hok
  · rw [if_neg hm] at hok
    cases hraw : pf [orderedRow fi.feature_names p'] with
    | error u =>
        simp only [hraw] at hok
        cases hok
    | ok raw =>
        simp only [hraw] at hok
        cases hpp : (make_predictions raw (strLower (fi.task_type.getD "classification"))).2 with
        | none =>
            simp only [hpp] at hok
            injection hok with h
            subst h
            rfl
        | some pss =>
            simp only [hpp] at hok
            cases pss with
            | nil => cases hok
            | cons p0 prest =>
                injection hok with h
                subst h
                rfl

theorem zip_fst_get {α β : Type} :
    ∀ (l1 : List α) (l2 : List β) (i : Nat) (x : α × β),
      (l1.zip l2)[i]? = some x → l1[i]? = some x.1 := by
  intro l1
  induction l1 with
  | nil => intro l2 i x h; simp [List.zip] at h
  | cons a rest ih =>
      intro l2 i x h
      cases l2 with
      | nil => simp [List.zip] at h
      | cons b rest2 =>
          cases i with
          | zero =>
              simp only [List.zip_cons_cons, List.getElem?_cons_zero] at h ⊢
              injection h with h
              subst h
              rfl
          | succ j =>
              simp only [List.zip_cons_cons, List.getElem?_cons_succ] at h ⊢
              exact ih rest2 j x h

theorem buildResultsAux_get (fi : FeatureInfo) (probs : Option (List (List ℚ))) :
    ∀ (l : List (Payload × Val)) (st i : Nat) (r' : Response),
      (buildResultsAux fi probs l st)[i]? = some r' →
      (l[i]?).map Prod.fst = some r'.input_features ∧
        r'.sample_index = some (st + i) := by
  intro l
  induction l with
  | nil => intro st i r' h; simp [buildResultsAux] at h
  | cons sp rest ih =>
      intro st i r' h
      cases i with
      | zero =>
          simp only [buildResultsAux, List.getElem?_cons_zero] at h ⊢
          injection h with h
          subst h
          exact ⟨rfl, rfl⟩
      | succ j =>
          simp only [buildResultsAux, List.getElem?_cons_succ] at h ⊢
          obtain ⟨h1, h2⟩ := ih (st + 1) j r' h
          refine ⟨h1, ?_⟩
          rw [h2]
          congr 1
          omega

theorem buildResults_get (samples : List Payload) (predictions : List Val)
    (probs : Option (List (List ℚ))) (fi : FeatureInfo) (i : Nat) (r' : Response)
    (h : (buildResults samples predictions probs fi)[i]? = some r') :
    samples[i]? = some r'.input_features ∧ r'.sample_index = some i := by
  obtain ⟨h1, h2⟩ := buildResultsAux_get fi probs (samples.zip predictions) 0 i r' h
  cases hz : (samples.zip predictions)[i]? with
  | none => rw [hz] at h1; cases h1
  | some sp =>
      rw [hz] at h1
      injection h1 with h1
      refine ⟨?_, by simpa using h2⟩
      rw [zip_fst_get samples predictions i sp hz, h1]

theorem predict_batch_ok_results (pf : Pipeline) (fi : FeatureInfo)
    (enc? : Option Encoders) (samples samples' : List Payload) (res : BatchResponse)
    (hencB : encStepBatch enc? samples = Except.ok samples')
    (hokB : predict_batch (some pf) (some fi) enc? (some samples) = Except.ok res) :
    ∃ raw, pf (samples'.map (orderedRow fi.feature_names)) = Except.ok raw ∧
      res.predictions =
        buildResults samples'
          (make_predictions raw (strLower (fi.task_type.getD "classification"))).1
          (make_predictions raw (strLower (fi.task_type.getD "classification"))).2 fi := by
  by_cases hse : samples.isEmpty
  · simp only [predict_batch, if_pos hse] at hokB
    cases hokB
  · simp only [predict_batch, if_neg hse, hencB] at hokB
    cases hfm : firstMissing fi.feature_names samples' 0 with
    | some im =>
        simp only [hfm] at hokB
        cases hokB
    | none =>
        simp only [hfm] at hokB
        cases hraw : pf (samples'.map (orderedRow fi.feature_names)) with
        | error u =>
            simp only [hraw] at hokB
            cases hokB
        | ok raw =>
            simp only [hraw] at hokB
            injection hokB with h
            subst h
            exact ⟨raw, rfl, rfl⟩

/-- C3 (amended): every successful prediction response echoes under
`input_features` the post-encoding payload — the caller's values with each
categorical feature covered by a loaded Encoder Set replaced by its integer
code (and the values unchanged when no encoding applies); in batch responses
each per-sample result echoes its own encoded sample.  (As frozen the claim is
false: with an Encoder Set loaded the original human-readable strings are not
echoed, see the counterexample.) -/
theorem C3_input_features_encoded (pf : Pipeline) (fi : FeatureInfo)
    (enc? : Option Encoders) (payload p' : Payload) (r : Response)
    (samples samples' : List Payload) (res : BatchResponse) (i : Nat) (rb : Response)
    (henc : encStep enc? payload = Except.ok p')
    (hok : predict (some pf) (some fi) enc? payload = Except.ok r)
    (hencB : encStepBatch enc? samples = Except.ok samples')
    (hokB : predict_batch (some pf) (some fi) enc? (some samples) = Except.ok res)
    (hres : res.predictions[i]? = some rb) :
    r.input_features = p' ∧ samples'[i]? = some rb.input_features := by
  refine ⟨predict_ok_input_features pf fi enc? payload p' r henc hok, ?_⟩
  obtain ⟨raw, hraw, hpreds⟩ :=
    predict_batch_ok_results pf fi enc? samples samples' res hencB hokB
  rw [hpreds] at hres
  exact (buildResults_get samples' _ _ fi i rb hres).1

/-- Concrete Feature Schema matching `encPayloadEx`: requires `color` and
`age`, classification, truthy target column. -/
def fiEx2 : FeatureInfo :=
  { feature_names := ["color", "age"], task_type := some "classification",
    target_column := some "target" }

/-- `encPayloadEx` after categorical encoding: `"red"` became code `1`. -/
def encodedEx : Payload := [("color", Val.vInt 1), ("age", Val.vInt 30)]

/-- The response `predict` returns for `encPayloadEx` under `fiEx2`,
`encodersEx` and `pipelineEx`. -/
def respEx : Response :=
  { prediction := some (Val.vInt 1), task_type := "classification",
    probabilities := none, confidence := none,
    predicted_class := some (Val.vInt 1), predicted_value := none,
    cluster_id := none, cluster := none, input_features := encodedEx,
    sample_index := none }

/-- The per-sample result `predict_batch` returns for the one-sample batch
`[encPayloadEx]`. -/
def respBatchEx : Response :=
  { respEx with sample_index := some 0 }

/-- The batch response for the one-sample batch `[encPayloadEx]`. -/
def batchRespEx : BatchResponse :=
  { predictions := [respBatchEx], total_samples := 1,
    task_type := "classification" }

/-- C3 counterexample: with the Encoder Set loaded, the successful response
for `{"color": "red", "age": 30}` echoes `{"color": 1, "age": 30}` under
`input_features` — the integer code, not the human-readable string the caller
supplied. -/
theorem C3_counterexample :
    (predict (some pipelineEx) (some fiEx2) (some encodersEx) encPayloadEx).map
        (fun r => r.input_features) =
      Except.ok encodedEx ∧
    encodedEx ≠ encPayloadEx := by
  decide

/-- Witness for C3 at the single payload `{"color": "red", "age": 30}` and the
one-sample batch around it. -/
theorem C3_input_features_encoded_witness :
    respEx.input_features = encodedEx ∧
    [encodedEx][0]? = some respBatchEx.input_features :=
  C3_input_features_encoded pipelineEx fiEx2 (some encodersEx) encPayloadEx
    encodedEx respEx [encPayloadEx] [encodedEx] batchRespEx 0 respBatchEx
    (by decide) (by decide) (by decide) (by decide) (by decide)

theorem applyEncAux_error_is400 (e : Encoders) :
    ∀ p err, applyEncAux p e = Except.error err → statusCode err = 400 := by
  induction e with
  | nil => intro p err h; cases h
  | cons fc rest ih =>
      obtain ⟨g, cs⟩ := fc
      intro p err h
      cases hpl : p.lookup g with
      | none =>
          simp only [applyEncAux, hpl] at h
          exact ih p err h
      | some v =>
          simp only [applyEncAux, hpl] at h
          by_cases hv : valueInClasses v cs = true
          · rw [if_pos hv] at h
            exact ih _ err h
          · rw [if_neg hv] at h
            injection h with h
            subst h
            rfl

theorem encodeSamples_error_is400 (e : Encoders) :
    ∀ samples err, encodeSamples e samples = Except.error err → statusCode err = 400 := by
  intro samples
  induction samples with
  | nil => intro err h; cases h
  | cons s rest ih =>
      intro err h
      cases ha : apply_categorical_encoding s e with
      | error u =>
          simp only [encodeSamples, ha] at h
          injection h with h
          rw [apply_eq_applyEncAux] at ha
          have h400 := applyEncAux_error_is400 e s u ha
          rw [h] at h400
          exact h400
      | ok s' =>
          simp only [encodeSamples, ha] at h
          cases hrest : encodeSamples e rest with
          | error u =>
              simp only [hrest] at h
              injection h with h
              have h400 := ih u hrest
              rw [h] at h400
              exact h400
          | ok l =>
              simp only [hrest] at h
              cases h

theorem encStepBatch_error_is400 (enc? : Option Encoders) (samples : List Payload)
    (err : PredictError) (h : encStepBatch enc? samples = Except.error err) :
    statusCode err = 400 := by
  cases enc? with
  | none => cases h
  | some e =>
      simp only [encStepBatch] at h
      by_cases he : e.isEmpty
      · rw [if_pos he] at h
        cases h
      · rw [if_neg he] at h
        exact encodeSamples_error_is400 e samples err h

theorem firstMissing_get (names : List String) :
    ∀ (l : List Payload) (st i : Nat) (m : List String),
      firstMissing names l st = some (i, m) →
      st ≤ i ∧
        (l[i - st]?).map (fun s => names.filter (fun f => !(dictHas s f))) = some m ∧
        m ≠ [] := by
  intro l
  induction l with
  | nil => intro st i m h; cases h
  | cons s rest ih =>
      intro st i m h
      by_cases hm : 0 < (names.filter (fun f => !(dictHas s f))).length
      · simp only [firstMissing, if_pos hm] at h
        injection h with h
        injection h with h1 h2
        subst h1
        subst h2
        refine ⟨Nat.le_refl _, ?_, ?_⟩
        · simp
        · intro hnil
          rw [hnil] at hm
          cases hm
      · simp only [firstMissing, if_neg hm] at h
        obtain ⟨hle, hget, hne⟩ := ih (st + 1) i m h
        refine ⟨by omega, ?_, hne⟩
        obtain ⟨k, hk⟩ : ∃ k, i - st = k + 1 := ⟨i - st - 1, by omega⟩
        rw [hk, List.getElem?_cons_succ]
        have hk2 : k = i - (st + 1) := by omega
        rw [hk2]
        exact hget

/-- C9: batch prediction is all-or-nothing.  A sample with an unknown
categorical value aborts the whole batch with that single 400 error (no
predictions are returned); a sample with missing features aborts the whole
batch with a single 400 naming the zero-based sample index and exactly that
sample's missing features; and on full success every per-sample result
carries `sample_index` equal to the sample's zero-based position. -/
theorem C9_batch_all_or_nothing (pf : Pipeline) (fi : FeatureInfo)
    (encA? : Option Encoders) (samplesA : List Payload) (errA : PredictError)
    (encB? : Option Encoders) (samplesB samplesB' : List Payload) (iB : Nat)
    (mB : List String)
    (encC? : Option Encoders) (samplesC samplesC' : List Payload)
    (resC : BatchResponse) (iC : Nat) (rC : Response)
    (hneA : samplesA.isEmpty = false)
    (hencA : encStepBatch encA? samplesA = Except.error errA)
    (hneB : samplesB.isEmpty = false)
    (hencB : encStepBatch encB? samplesB = Except.ok samplesB')
    (hfmB : firstMissing fi.feature_names samplesB' 0 = some (iB, mB))
    (hencC : encStepBatch encC? samplesC = Except.ok samplesC')
    (hokC : predict_batch (some pf) (some fi) encC? (some samplesC) = Except.ok resC)
    (hresC : resC.predictions[iC]? = some rC) :
    (predict_batch (some pf) (some fi) encA? (some samplesA) = Except.error errA ∧
      statusCode errA = 400) ∧
    (predict_batch (some pf) (some fi) encB? (some samplesB) =
        Except.error (PredictError.sampleMissingFeatures iB mB) ∧
      statusCode (PredictError.sampleMissingFeatures iB mB) = 400 ∧
      (samplesB'[iB]?).map (fun s => fi.feature_names.filter (fun f => !(dictHas s f))) =
        some mB ∧
      mB ≠ []) ∧
    rC.sample_index = some iC := by
  refine ⟨⟨?_, encStepBatch_error_is400 encA? samplesA errA hencA⟩, ⟨?_, rfl, ?_, ?_⟩, ?_⟩
  · simp only [predict_batch, hneA, Bool.false_eq_true, if_false, hencA]
  · simp only [predict_batch, hneB, Bool.false_eq_true, if_false, hencB, hfmB]
  · have h := (firstMissing_get fi.feature_names samplesB' 0 iB mB hfmB).2.1
    simpa using h
  · exact (firstMissing_get fi.feature_names samplesB' 0 iB mB hfmB).2.2
  · obtain ⟨raw, hraw, hpreds⟩ :=
      predict_batch_ok_results pf fi encC? samplesC samplesC' resC hencC hokC
    rw [hpreds] at hresC
    exact (buildResults_get samplesC' _ _ fi iC rC hresC).2

/-- The encoded successful sample of the C9 witness batch. -/
def sampleC9Ex : Payload := [("color", Val.vInt 1), ("size", Val.vInt 2)]

/-- The per-sample result of the C9 witness batch. -/
def respC9Ex : Response :=
  { prediction := some (Val.vInt 1), task_type := "classification",
    probabilities := none, confidence := none,
    predicted_class := some (Val.vInt 1), predicted_value := none,
    cluster_id := none, cluster := none, input_features := sampleC9Ex,
    sample_index := some 0 }

/-- The batch response of the C9 witness batch. -/
def batchC9Ex : BatchResponse :=
  { predictions := [respC9Ex], total_samples := 1, task_type := "classification" }

/-- Witness for C9: a batch with an unknown category is rejected whole with
that 400; a batch whose first sample misses `"size"` is rejected whole with
the index-0 400 listing exactly `["size"]`; a valid one-sample batch succeeds
with `sample_index = 0`. -/
theorem C9_batch_all_or_nothing_witness :
    (predict_batch (some pipelineEx) (some fiEx) (some encodersEx)
          (some [[("color", Val.vStr "green")]]) =
        Except.error (PredictError.unknownCategory "color" (Val.vStr "green")
          ["blue", "red"]) ∧
      statusCode (PredictError.unknownCategory "color" (Val.vStr "green")
        ["blue", "red"]) = 400) ∧
    (predict_batch (some pipelineEx) (some fiEx) (some encodersEx)
          (some [[("color", Val.vStr "red")]]) =
        Except.error (PredictError.sampleMissingFeatures 0 ["size"]) ∧
      statusCode (PredictError.sampleMissingFeatures 0 ["size"]) = 400 ∧
      ([[("color", Val.vInt 1)]][0]?).map
          (fun s => fiEx.feature_names.filter (fun f => !(dictHas s f))) =
        some ["size"] ∧
      ["size"] ≠ ([] : List String)) ∧
    respC9Ex.sample_index = some 0 :=
  C9_batch_all_or_nothing pipelineEx fiEx
    (some encodersEx) [[("color", Val.vStr "green")]]
    (PredictError.unknownCategory "color" (Val.vStr "green") ["blue", "red"])
    (some encodersEx) [[("color", Val.vStr "red")]] [[("color", Val.vInt 1)]] 0 ["size"]
    (some encodersEx) [[("color", Val.vStr "red"), ("size", Val.vInt 2)]] [sampleC9Ex]
    batchC9Ex 0 respC9Ex
    (by decide) (by decide) (by decide) (by decide) (by decide) (by decide)
    (by decide) (by decide)

/-- C10: when the Feature Schema's `target_column` is truthy, every
classification response carries the extra `predicted_class` field equal to the
response's `prediction` value (the first decoded prediction); when
`target_column` is absent or falsy, `predicted_class` is absent. -/
theorem C10_predicted_class_field (prediction predictionF : List Val)
    (fi fiF : FeatureInfo) (probs probsF : Option (List ℚ))
    (hc : strLower (fi.task_type.getD "unknown") = "classification")
    (hcF : strLower (fiF.task_type.getD "unknown") = "classification")
    (ht : truthyStr fi.target_column = true)
    (hf : truthyStr fiF.target_column = false) :
    (format_prediction_response prediction fi probs).predicted_class =
      (format_prediction_response prediction fi probs).prediction ∧
    (format_prediction_response prediction fi probs).prediction =
      prediction.head? ∧
    (format_prediction_response predictionF fiF probsF).predicted_class = none := by
  refine ⟨?_, ?_, ?_⟩
  · cases probs with
    | none => simp [format_prediction_response, hc, ht]
    | some pl =>
        by_cases hl : 0 < pl.length
        · simp [format_prediction_response, hc, ht, hl]
        · simp [format_prediction_response, hc, ht, hl]
  · cases probs with
    | none => simp [format_prediction_response, hc, ht]
    | some pl =>
        by_cases hl : 0 < pl.length
        · simp [format_prediction_response, hc, ht, hl]
        · simp [format_prediction_response, hc, ht, hl]
  · cases probsF with
    | none => simp [format_prediction_response, hcF, hf]
    | some pl =>
        by_cases hl : 0 < pl.length
        · simp [format_prediction_response, hcF, hf, hl]
        · simp [format_prediction_response, hcF, hf, hl]

/-- A Feature Schema with no target column, for the C10 witness. -/
def fiNoTargetEx : FeatureInfo :=
  { feature_names := ["color", "age"], task_type := some "classification",
    target_column := none }

/-- Witness for C10 at the one-prediction list `[1]`: with a truthy target
column the response has `predicted_class = prediction = 1`; with no target
column the field is absent. -/
theorem C10_predicted_class_field_witness :
    (format_prediction_response [Val.vInt 1] fiEx2 none).predicted_class =
      (format_prediction_response [Val.vInt 1] fiEx2 none).prediction ∧
    (format_prediction_response [Val.vInt 1] fiEx2 none).prediction =
      [Val.vInt 1].head? ∧
    (format_prediction_response [Val.vInt 1] fiNoTargetEx none).predicted_class =
      none :=
  C10_predicted_class_field [Val.vInt 1] [Val.vInt 1] fiEx2 fiNoTargetEx none none
    (by decide) (by decide) (by decide) (by decide)

end MlCli
